import Mathlib

/-!
# Folder-to-Tag plugin: verification of the tag deriver and reconciler

Shallow embedding of the two revisions of the plugin found in the repository:

* the current revision (frontmatter-based; `getFolderTagsFromPath`,
  `applyFolderTag`, `removeFolderTags` operating through the host's
  `processFrontMatter` facility), and
* the older text-based revision (raw-content `applyFolderTag` /
  `removeFolderTags` handling a YAML frontmatter block and an inline
  `tags::` line), modelled here as `applyFolderTagContent` /
  `removeFolderTagsContent` over documents represented as lists of lines.

JavaScript string primitives used by the source (`String.prototype.trim`,
`split`, `join`, `trimStart`) are embedded as executable functions over
`List Char` so that every operation reduces in the kernel.
-/

namespace FolderToTag

/-! ## JS string primitives -/

/-- Whitespace test used by the JS `trim`/`trimStart` model. -/
def isWs (c : Char) : Bool := c.isWhitespace

/-- `String.prototype.trim`: drop leading and trailing whitespace. -/
def trimChars (l : List Char) : List Char :=
  (l.dropWhile isWs).rdropWhile isWs

/-- JS `s.trim()` on strings. -/
def jsTrim (s : String) : String := String.mk (trimChars s.data)

/-- JS `s.trimStart()` on strings. -/
def jsTrimStart (s : String) : String := String.mk (s.data.dropWhile isWs)

/-- A string consisting only of whitespace (or empty). -/
def isAllWs (s : String) : Bool := s.data.all isWs

/-- JS `s.split(sep)` for a one-character separator, accumulator form. -/
def splitCharAux (c : Char) : List Char → List Char → List String
  | [], acc => [String.mk acc.reverse]
  | x :: xs, acc =>
      if x = c then String.mk acc.reverse :: splitCharAux c xs []
      else splitCharAux c xs (x :: acc)

/-- JS `s.split(sep)` for a one-character separator (`","`, `"/"`). -/
def splitChar (c : Char) (s : String) : List String :=
  splitCharAux c s.data []

/-- JS `arr.join(sep)`. -/
def joinSep (sep : String) : List String → String
  | [] => ""
  | [x] => x
  | x :: xs => x ++ sep ++ joinSep sep xs

/-- Prefix test on strings via char lists (JS `startsWith`). -/
def strStartsWith (pre s : String) : Bool := pre.data.isPrefixOf s.data

/-- Suffix test on strings via char lists (JS `endsWith`). -/
def strEndsWith (post s : String) : Bool := post.data.reverse.isPrefixOf s.data.reverse

/-- Drop the first `n` characters of a string (JS `s.slice(n)`). -/
def strDrop (n : Nat) (s : String) : String := String.mk (s.data.drop n)

/-- Drop the last `n` characters of a string. -/
def strDropRight (n : Nat) (s : String) : String :=
  String.mk (s.data.take (s.data.length - n))

/-! ## Configuration and the tag deriver -/

/-- The `folderDepth` setting: `"1" | "2split" | "2single" | "full"`. -/
inductive FolderDepth
  | d1
  | d2split
  | d2single
  | dfull
deriving DecidableEq

/-- `FolderTagPluginSettings` fields consumed by the deriver. -/
structure Config where
  folderDepth : FolderDepth
  tagPrefix : String
  tagSuffix : String
deriving DecidableEq

/-- `DEFAULT_SETTINGS = { folderDepth: "1", tagPrefix: "", tagSuffix: "" }`. -/
def defaultConfig : Config := ⟨.d1, "", ""⟩

/-- The `switch (folderDepth)` body of `getFolderTagsFromPath`, acting on the
folder segments `parts` (the path split on `"/"` with the file name removed).
The source indexes `parts[parts.length-1]` (last) and `parts[parts.length-2]`
(parent); both indexings are guarded by the emptiness / `length >= 2` tests. -/
def derive (cfg : Config) (parts : List String) : List String :=
  if parts.isEmpty then []
  else
    match cfg.folderDepth with
    | .d1 => [cfg.tagPrefix ++ parts.getLastD "" ++ cfg.tagSuffix]
    | .d2split =>
        if 2 ≤ parts.length then
          [cfg.tagPrefix ++ parts.getLastD "" ++ cfg.tagSuffix,
           cfg.tagPrefix ++ parts.dropLast.getLastD "" ++ cfg.tagSuffix]
        else
          [cfg.tagPrefix ++ parts.getLastD "" ++ cfg.tagSuffix]
    | .d2single =>
        if 2 ≤ parts.length then
          [cfg.tagPrefix ++ parts.dropLast.getLastD "" ++ "/" ++
             parts.getLastD "" ++ cfg.tagSuffix]
        else
          [cfg.tagPrefix ++ parts.getLastD "" ++ cfg.tagSuffix]
    | .dfull => [cfg.tagPrefix ++ joinSep "/" parts ++ cfg.tagSuffix]

/-- `getFolderTagsFromPath`: split the file path on `"/"`, drop the file name
(`slice(0, -1)`), derive tags.  The host's `normalizePath` (external to the
repository) is the identity on already-normalized vault paths and is modelled
as such; the older revision's `getFolderTags` omits it entirely. -/
def getFolderTagsFromPath (cfg : Config) (path : String) : List String :=
  derive cfg ((splitChar '/' path).dropLast)

/-! ## The frontmatter reconciler (current revision)

`applyFolderTag` / `removeFolderTags` run inside the host's
`processFrontMatter` transaction; the only state they read and write is the
`tags` entry of the parsed frontmatter object.  That entry is one of: a list
of scalars, a comma-separated string, or absent.  Scalar list entries are
modelled as strings (the source coerces each entry with `String(t)`). -/

/-- Shape of `yaml.tags` inside the frontmatter object. -/
inductive TagsValue
  | list (l : List String)
  | str (s : String)
  | absent
deriving DecidableEq

/-- The tag list carried by a `TagsValue` (for stating properties). -/
def tagsListOf : TagsValue → List String
  | .list l => l
  | .str _ => []
  | .absent => []

/-- Representation test: structured list. -/
def isListRep : TagsValue → Bool
  | .list _ => true
  | _ => false

/-- Representation test: structured comma-separated string. -/
def isStrRep : TagsValue → Bool
  | .str _ => true
  | _ => false

/-- Extraction step of `applyFolderTag`/`removeFolderTags` (lines 92–96 and
122–127): a list is mapped through `String(t).trim()`, a string is split on
`","` and trimmed, anything else contributes nothing. -/
def extractTags : TagsValue → List String
  | .list l => l.map jsTrim
  | .str s => (splitChar ',' s).map jsTrim
  | .absent => []

/-- `folderTags.forEach(t => { if (!existingTags.includes(t)) existingTags.push(t) })`. -/
def mergeTags (existingTags folderTags : List String) : List String :=
  folderTags.foldl (fun acc t => if acc.contains t then acc else acc ++ [t]) existingTags

/-- Core of the apply reconciliation on an extracted tag list: filter the
stale tags (`existingTags.filter(t => !oldTags.includes(t))`), then merge the
new folder tags without duplicating entries already present. -/
def applyTags (existingTags staleTags folderTags : List String) : List String :=
  mergeTags (existingTags.filter (fun t => !staleTags.contains t)) folderTags

/-- The triggering action passed to `applyFolderTag`. -/
inductive TagAction
  | create
  | move
  | rerun
deriving DecidableEq

/-- `applyFolderTag(file, action, oldPath?)`, current revision (lines 85–109):
derive the folder tags of the file's path (early return when empty), extract
the existing tags, strip the tags derived from `oldPath` when the action is a
move or rerun and an old path was supplied (`&& oldPath`), merge the new
folder tags, and store the result as a list.  `oldPath = none` models the JS
`undefined` (and the falsy `""`). -/
def applyFolderTag (cfg : Config) (filePath : String) (action : TagAction)
    (oldPath : Option String) (v : TagsValue) : TagsValue :=
  let folderTags := getFolderTagsFromPath cfg filePath
  if folderTags.isEmpty then v
  else
    let existingTags := extractTags v
    let staleTags :=
      match action, oldPath with
      | .move, some op => getFolderTagsFromPath cfg op
      | .rerun, some op => getFolderTagsFromPath cfg op
      | _, _ => []
    .list (applyTags existingTags staleTags folderTags)

/-- `removeFolderTags(file)`, current revision (lines 115–134): extract, filter
out the folder tags of the current path, delete the `tags` key when the result
is empty, otherwise write the filtered list. -/
def removeFolderTags (cfg : Config) (filePath : String) (v : TagsValue) : TagsValue :=
  let folderTags := getFolderTagsFromPath cfg filePath
  if folderTags.isEmpty then v
  else
    let existingTags := (extractTags v).filter (fun t => !folderTags.contains t)
    if existingTags.isEmpty then .absent else .list existingTags

/-! ## Bulk passes (settings tab, current revision)

The per-document work is abstracted as an `Except`-valued function; the two
loops differ exactly in their exception structure: the reapply loop wraps the
document call in `try`/`catch` and reports the failure, the remove loop
awaits the call directly, so a thrown error propagates and ends the loop. -/

/-- The "Reapply to all notes" loop (lines 195–202): every document is
processed; a failure is caught and recorded for that document, and the loop
continues. -/
def reapplyPass {α ε : Type} (process : α → Except ε Unit) : List α → List (α × Option ε)
  | [] => []
  | d :: ds =>
      (d, match process d with
          | .ok _ => none
          | .error e => some e) :: reapplyPass process ds

/-- The "Remove folder tags" loop (lines 216–218): documents are processed in
order with no `try`/`catch`; the list of documents actually attempted ends at
the first failing document because its error propagates out of the loop. -/
def removePassAttempts {α ε : Type} (process : α → Except ε Unit) : List α → List α
  | [] => []
  | d :: ds =>
      match process d with
      | .ok _ => d :: removePassAttempts process ds
      | .error _ => [d]

/-- A per-document operation that fails on document `1` (an I/O failure on
one note), used to exercise the bulk passes. -/
def failsOnDocOne : Nat → Except String Unit :=
  fun n => if n = 1 then .error "write failed" else .ok ()

/-! ## The text-based reconciler (older revision, lines 317–434 of the source)

Documents are modelled as lists of lines (the text joined with `"\n"`).
The YAML parse/serialize helper (`js-yaml`, an external collaborator) is
modelled on the fragment this code produces and consumes: a mapping whose
values are scalar strings (`key: value`) or block lists of scalar items
(`key:` followed by `  - item` lines); `dump` emits an empty list in flow
style (`key: []`) and `load` of an unparsable block is caught and replaced
by the empty mapping.  Regex behaviour is embedded per line; the anchors
`^`/`$` of the `m`-flagged inline pattern are line boundaries, so matching
line by line is faithful for documents whose `\s*` runs do not span
newlines (true of all vault notes handled here). -/

/-- A YAML value in the modelled fragment. -/
inductive YVal
  | str (s : String)
  | list (l : List String)
deriving DecidableEq

/-- A parsed frontmatter mapping, in key order. -/
abbrev YamlObj := List (String × YVal)

/-- Scan for the first line starting with `---` (the first `\n---`
occurrence): the frontmatter is everything before it, and the remainder of
that closing line (after the three dashes) starts the body, mirroring the
non-greedy match ending right after `\n---`. -/
def findFrontmatterCloseAfter : List String → Option (List String × List String)
  | [] => none
  | l :: ls =>
      if strStartsWith "---" l then some ([], strDrop 3 l :: ls)
      else
        match findFrontmatterCloseAfter ls with
        | some (fm, body) => some (l :: fm, body)
        | none => none

/-- `^---\n([\s\S]*?)\n---` applied to the lines after the opening `---`:
the opener's own newline is already consumed by `^---\n`, so the closing
`\n---` needs a further line separator — the first line after the opener
always belongs to the capture, and the close is searched from the second
line on (a document whose second line starts with `---` has no frontmatter
match at all). -/
def findFrontmatterClose : List String → Option (List String × List String)
  | [] => none
  | l :: ls =>
      match findFrontmatterCloseAfter ls with
      | some (fm, body) => some (l :: fm, body)
      | none => none

/-- Split a document into frontmatter lines and body lines when the YAML
regex matches: the first line must be exactly `---` (the regex requires
`^---\n`) and a closing `\n---` must exist. -/
def splitFrontmatter : List String → Option (List String × List String)
  | [] => none
  | l0 :: rest => if l0 = "---" then findFrontmatterClose rest else none

/-- `content.replace(yamlRegex, "").trimStart()` / `content.trimStart()` on
the line representation: leading all-whitespace lines disappear with their
newlines, and the first remaining line loses its leading whitespace. -/
def trimStartLines : List String → List String
  | [] => []
  | l :: ls => if isAllWs l then trimStartLines ls else jsTrimStart l :: ls

/-- Split `key: value` at the first `": "` occurrence. -/
def splitKeyVal (l : String) : Option (String × String) :=
  match (splitChar ':' l) with
  | k :: rest@(r0 :: _) =>
      if strStartsWith " " r0 then
        some (k, strDrop 1 (joinSep ":" rest))
      else none
  | _ => none

/-- Collect leading `  - item` lines of a block list. -/
def parseBlockItems : List String → List String × List String
  | [] => ([], [])
  | l :: ls =>
      if strStartsWith "  - " l then
        let (items, rest) := parseBlockItems ls
        (strDrop 4 l :: items, rest)
      else ([], l :: ls)

/-- Fuelled worker for `loadYamlLines`; the fuel starts at the number of
lines, and since `parseBlockItems` only consumes lines, each step strictly
shrinks the remaining line list, so the fuel never runs out on the initial
call. -/
def loadYamlGo : Nat → List String → Option YamlObj
  | _, [] => some []
  | 0, _ :: _ => none
  | fuel + 1, l :: ls =>
      if strEndsWith ":" l then
        let key := strDropRight 1 l
        let (items, rest) := parseBlockItems ls
        (loadYamlGo fuel rest).map (fun o => (key, .list items) :: o)
      else
        match splitKeyVal l with
        | some (k, v) => (loadYamlGo fuel ls).map (fun o => (k, .str v) :: o)
        | none => none

/-- `jsyaml.load` on the modelled fragment; `none` models a parse failure
(caught by the source, which then proceeds with the empty mapping). -/
def loadYamlLines (lines : List String) : Option YamlObj :=
  loadYamlGo lines.length lines

/-- `jsyaml.dump(obj, { lineWidth: -1 }).trim()` on the modelled fragment. -/
def dumpYamlLines (o : YamlObj) : List String :=
  (o.map fun kv =>
    match kv with
    | (k, .str s) => [k ++ ": " ++ s]
    | (k, .list []) => [k ++ ": []"]
    | (k, .list xs) => (k ++ ":") :: xs.map (fun x => "  - " ++ x)).flatten

/-- `yamlObj.tags = tags`: replace the value in place when the key exists
(JS keeps the key's position), otherwise append the key. -/
def setKey (o : YamlObj) (k : String) (v : YVal) : YamlObj :=
  if o.any (fun p => p.1 == k) then
    o.map (fun p => if p.1 == k then (k, v) else p)
  else o ++ [(k, v)]

/-- `Array.isArray(yamlObj.tags) ? yamlObj.tags : []`. -/
def tagsOfYamlObj (o : YamlObj) : List String :=
  match o.lookup "tags" with
  | some (.list l) => l
  | _ => []

/-- `oldPath.split("/").slice(-2, -1)[0]`: the second-to-last path segment,
or JS `undefined` (modelled `none`) when fewer than two segments exist. -/
def oldFolderOf (p : String) : Option String :=
  let a := splitChar '/' p
  if 2 ≤ a.length then some (a.dropLast.getLastD "") else none

/-- `tags.filter(t => t !== oldFolder)`; comparing against `undefined`
removes nothing. -/
def filterOldFolder (oldFolder : Option String) (tags : List String) : List String :=
  match oldFolder with
  | some f => tags.filter (fun t => !(t == f))
  | none => tags

/-- The inline pattern `^tags\s*::?\s*(.+)$` applied to one line, returning
the captured group.  When everything after the colon(s) is whitespace, the
greedy `\s*` backtracks one character so `(.+)` captures the final
whitespace character; a line with nothing after the colon(s) does not
match. -/
def matchInlineTagLine (l : String) : Option String :=
  if strStartsWith "tags" l then
    match (strDrop 4 l).data.dropWhile isWs with
    | ':' :: r1 =>
        let r2 := match r1 with
                  | ':' :: r' => r'
                  | _ => r1
        let r3 := r2.dropWhile isWs
        if r3.isEmpty then
          if r2.isEmpty then none
          else some (String.mk [r2.getLastD ' '])
        else some (String.mk r3)
    | _ => none
  else none

/-- First line matching the inline pattern, with its captured group. -/
def findInline : List String → Option String
  | [] => none
  | l :: ls =>
      match matchInlineTagLine l with
      | some c => some c
      | none => findInline ls

/-- `content.replace(inlineTagRegex, newLine)`: rewrite the first matching
line. -/
def replaceFirstInline (newLine : String) : List String → List String
  | [] => []
  | l :: ls =>
      if (matchInlineTagLine l).isSome then newLine :: ls
      else l :: replaceFirstInline newLine ls

/-- Settings of the older revision that the reconciler reads
(`defaultTagStyle` is consulted only by the settings UI, never here). -/
structure SettingsB where
  cfg : Config
  overrideExisting : Bool
deriving DecidableEq

/-- `DEFAULT_SETTINGS` of the older revision (override disabled). -/
def defaultSettingsB : SettingsB := ⟨defaultConfig, false⟩

/-- Fall-through of the older `applyFolderTag` when the YAML branch is not
taken: the inline branch (guarded like the YAML one), else the
"no tags found" branch that prepends a fresh frontmatter block to the
`trimStart`-ed content. -/
def applyInlineOrNew (s : SettingsB) (action : TagAction) (oldPath : Option String)
    (folderTags : List String) (content : List String) : List String :=
  match findInline content with
  | some captured =>
      if action ≠ .create ∨ s.overrideExisting then
        let tags := (splitChar ',' captured).map jsTrim
        let tags :=
          match action, oldPath with
          | .move, some op => filterOldFolder (oldFolderOf op) tags
          | .rerun, some op => filterOldFolder (oldFolderOf op) tags
          | _, _ => tags
        let tags := mergeTags tags folderTags
        replaceFirstInline ("tags:: " ++ joinSep ", " tags) content
      else
        "---" :: "tags:" :: folderTags.map (fun t => "  - " ++ t) ++
          "---" :: trimStartLines content
  | none =>
      "---" :: "tags:" :: folderTags.map (fun t => "  - " ++ t) ++
        "---" :: trimStartLines content

/-- `applyFolderTag(file, action, oldPath?)`, older text-based revision
(lines 317–384): YAML branch when a frontmatter block exists and the action
is not a fresh create (unless overriding); otherwise the inline branch under
the same guard; otherwise prepend a new frontmatter block.  The YAML branch
strips only the raw parent folder name of the old path. -/
def applyFolderTagContent (s : SettingsB) (filePath : String) (action : TagAction)
    (oldPath : Option String) (content : List String) : List String :=
  let folderTags := getFolderTagsFromPath s.cfg filePath
  if folderTags.isEmpty then content
  else
    match splitFrontmatter content with
    | some (fmLines, bodyLines) =>
        if action ≠ .create ∨ s.overrideExisting then
          let body := trimStartLines bodyLines
          let yamlObj := (loadYamlLines fmLines).getD []
          let tags := tagsOfYamlObj yamlObj
          let tags :=
            match action, oldPath with
            | .move, some op => filterOldFolder (oldFolderOf op) tags
            | .rerun, some op => filterOldFolder (oldFolderOf op) tags
            | _, _ => tags
          let tags := mergeTags tags folderTags
          "---" :: dumpYamlLines (setKey yamlObj "tags" (.list tags)) ++ "---" :: body
        else applyInlineOrNew s action oldPath folderTags content
    | none => applyInlineOrNew s action oldPath folderTags content

/-- `removeFolderTags(file)`, older text-based revision (lines 389–434):
the YAML branch filters the `tags` list (when it is a list) and always
rewrites the block; the inline branch rewrites the first matching line with
the filtered comma list — neither branch ever deletes the tag field. -/
def removeFolderTagsContent (s : SettingsB) (filePath : String)
    (content : List String) : List String :=
  let folderTags := getFolderTagsFromPath s.cfg filePath
  if folderTags.isEmpty then content
  else
    match splitFrontmatter content with
    | some (fmLines, bodyLines) =>
        let body := trimStartLines bodyLines
        let yamlObj := (loadYamlLines fmLines).getD []
        let yamlObj :=
          match yamlObj.lookup "tags" with
          | some (.list l) =>
              setKey yamlObj "tags" (.list (l.filter (fun t => !folderTags.contains t)))
          | _ => yamlObj
        "---" :: dumpYamlLines yamlObj ++ "---" :: body
    | none =>
        match findInline content with
        | some captured =>
            let tags := ((splitChar ',' captured).map jsTrim).filter
              (fun t => !folderTags.contains t)
            replaceFirstInline ("tags:: " ++ joinSep ", " tags) content
        | none => content

/-! ## Helper lemmas -/

theorem length_dropWhile_le (p : α → Bool) (l : List α) :
    (l.dropWhile p).length ≤ l.length := by
  induction l with
  | nil => simp
  | cons a l ih =>
    rw [List.dropWhile_cons]
    split
    · exact ih.trans (Nat.le_succ _)
    · simp

theorem dropWhile_eq_self_of_leading (p : α → Bool) {x y : List α}
    (hxy : x <+: y) (hy : y.dropWhile p = y) : x.dropWhile p = x := by
  cases x with
  | nil => simp
  | cons a x' =>
    obtain ⟨s, hs⟩ := hxy
    have hya : y = a :: (x' ++ s) := by rw [← hs]; simp
    have hpa : ¬ (p a = true) := by
      intro hpa
      rw [hya, List.dropWhile_cons, if_pos hpa] at hy
      have hlen := length_dropWhile_le p (x' ++ s)
      rw [hy] at hlen
      simp at hlen
    rw [List.dropWhile_cons, if_neg hpa]

theorem trimChars_idem (l : List Char) : trimChars (trimChars l) = trimChars l := by
  unfold trimChars
  have h1 : (l.dropWhile isWs).dropWhile isWs = l.dropWhile isWs :=
    List.dropWhile_idempotent isWs l
  have hpre : ((l.dropWhile isWs).rdropWhile isWs) <+: (l.dropWhile isWs) :=
    List.rdropWhile_prefix isWs (l.dropWhile isWs)
  rw [dropWhile_eq_self_of_leading isWs hpre h1, List.rdropWhile_idempotent]

theorem jsTrim_idem (s : String) : jsTrim (jsTrim s) = jsTrim s := by
  show String.mk (trimChars (String.mk (trimChars s.data)).data) = _
  rw [show (String.mk (trimChars s.data)).data = trimChars s.data from rfl, trimChars_idem]
  rfl

theorem contains_iff_mem {l : List String} {a : String} : l.contains a = true ↔ a ∈ l :=
  ⟨List.mem_of_elem_eq_true, List.elem_eq_true_of_mem⟩

theorem mergeTags_nil (ex : List String) : mergeTags ex [] = ex := rfl

theorem mergeTags_cons (ex : List String) (t : String) (ts : List String) :
    mergeTags ex (t :: ts) = mergeTags (if ex.contains t then ex else ex ++ [t]) ts := rfl

theorem mem_mergeTags_left {a : String} (ex new : List String)
    (h : a ∈ ex) : a ∈ mergeTags ex new := by
  induction new generalizing ex with
  | nil => simpa [mergeTags_nil] using h
  | cons t ts ih =>
    rw [mergeTags_cons]
    split
    · exact ih ex h
    · exact ih _ (List.mem_append_left _ h)

theorem mem_mergeTags_iff {a : String} (ex new : List String) :
    a ∈ mergeTags ex new ↔ a ∈ ex ∨ a ∈ new := by
  induction new generalizing ex with
  | nil => simp [mergeTags_nil]
  | cons t ts ih =>
    rw [mergeTags_cons, ih]
    by_cases hc : ex.contains t = true
    · rw [if_pos hc]
      have ht : t ∈ ex := contains_iff_mem.mp hc
      constructor
      · rintro (h | h)
        · exact Or.inl h
        · exact Or.inr (List.mem_cons_of_mem _ h)
      · rintro (h | h)
        · exact Or.inl h
        · rcases List.mem_cons.mp h with rfl | h
          · exact Or.inl ht
          · exact Or.inr h
    · rw [if_neg hc]
      simp only [List.mem_append, List.mem_singleton, List.mem_cons]
      tauto

theorem count_mergeTags (ex new : List String) (a : String) :
    (mergeTags ex new).count a = if a ∈ new then max (ex.count a) 1 else ex.count a := by
  induction new generalizing ex with
  | nil => simp [mergeTags_nil]
  | cons t ts ih =>
    rw [mergeTags_cons, ih]
    by_cases hc : ex.contains t = true
    · rw [if_pos hc]
      have ht : t ∈ ex := contains_iff_mem.mp hc
      by_cases hat : a = t
      · subst hat
        have hpos : 0 < ex.count a := List.count_pos_iff.mpr ht
        have hmax : max (ex.count a) 1 = ex.count a := Nat.max_eq_left hpos
        by_cases hts : a ∈ ts <;> simp [hts, hmax]
      · by_cases hts : a ∈ ts <;> simp [hts, hat]
    · rw [if_neg hc]
      have ht : t ∉ ex := fun h => hc (contains_iff_mem.mpr h)
      by_cases hat : a = t
      · subst hat
        have hz : ex.count a = 0 := List.count_eq_zero.mpr ht
        have happ : (ex ++ [a]).count a = 1 := by
          rw [List.count_append, hz]
          simp
        by_cases hts : a ∈ ts <;> simp [hts, happ, hz]
      · have happ : (ex ++ [t]).count a = ex.count a := by
          rw [List.count_append]
          have : ([t] : List String).count a = 0 :=
            List.count_eq_zero.mpr (by simp [hat])
          omega
        by_cases hts : a ∈ ts <;> simp [hts, happ, hat]

theorem prefix_mergeTags (ex new : List String) : ex <+: mergeTags ex new := by
  induction new generalizing ex with
  | nil => simp [mergeTags_nil]
  | cons t ts ih =>
    rw [mergeTags_cons]
    split
    · exact ih ex
    · exact (List.prefix_append ex [t]).trans (ih _)

theorem mergeTags_eq_self (ex new : List String) (h : ∀ t ∈ new, t ∈ ex) :
    mergeTags ex new = ex := by
  induction new with
  | nil => rfl
  | cons t ts ih =>
    rw [mergeTags_cons,
      if_pos (contains_iff_mem.mpr (h t (List.mem_cons_self t ts)))]
    exact ih fun x hx => h x (List.mem_cons_of_mem _ hx)

theorem extractTags_trimFixed (v : TagsValue) : ∀ t ∈ extractTags v, jsTrim t = t := by
  intro t ht
  cases v with
  | list l =>
    obtain ⟨x, -, rfl⟩ := List.mem_map.mp ht
    exact jsTrim_idem x
  | str s =>
    obtain ⟨x, -, rfl⟩ := List.mem_map.mp ht
    exact jsTrim_idem x
  | absent => simp [extractTags] at ht

theorem extractTags_list_eq (l : List String) (h : ∀ t ∈ l, jsTrim t = t) :
    extractTags (.list l) = l := by
  show l.map jsTrim = l
  conv_rhs => rw [← List.map_id l]
  exact List.map_congr_left h

theorem isEmpty_false_of_ne_nil {l : List String} (h : l ≠ []) : l.isEmpty = false := by
  cases l with
  | nil => exact absurd rfl h
  | cons a t => rfl

theorem contains_eq_false_iff {l : List String} {a : String} :
    l.contains a = false ↔ a ∉ l := by
  constructor
  · intro h hm
    have hc := contains_iff_mem.mpr hm
    rw [h] at hc
    exact Bool.noConfusion hc
  · intro h
    cases hc : l.contains a with
    | false => rfl
    | true => exact absurd (contains_iff_mem.mp hc) h

theorem applyTags_nil_stale (ex new : List String) :
    applyTags ex [] new = mergeTags ex new := by
  simp [applyTags]

/-! ## Claim theorems -/

/-- C8: in `splitPair` (`"2split"`) depth mode, a path with at least two
segments derives exactly the two tags `[prefix+last+suffix,
prefix+parent+suffix]` — last folder first, parent second — and a path with
exactly one segment falls back to the `single` (`"1"`) mode result, one tag
built from the last segment. -/
theorem c8_splitPair_derive (cfg : Config) (parts : List String)
    (hmode : cfg.folderDepth = .d2split) :
    (2 ≤ parts.length →
      derive cfg parts =
        [cfg.tagPrefix ++ parts.getLastD "" ++ cfg.tagSuffix,
         cfg.tagPrefix ++ parts.dropLast.getLastD "" ++ cfg.tagSuffix]) ∧
    (parts.length = 1 →
      derive cfg parts = derive { cfg with folderDepth := .d1 } parts) := by
  refine ⟨fun h2 => ?_, fun h1 => ?_⟩
  · have hne : parts.isEmpty = false := by
      cases parts with
      | nil => simp at h2
      | cons a l => rfl
    simp [derive, hne, hmode, h2]
  · have hne : parts.isEmpty = false := by
      cases parts with
      | nil => simp at h1
      | cons a l => rfl
    have hn2 : ¬ 2 ≤ parts.length := by omega
    simp [derive, hne, hmode, hn2]

/-- Witness for `c8_splitPair_derive` at the spec's concrete inputs. -/
theorem c8_splitPair_derive_witness :
    derive ⟨.d2split, "p-", "-s"⟩ ["a", "b", "c"] = ["p-c-s", "p-b-s"] ∧
    derive ⟨.d2split, "p-", "-s"⟩ ["c"] = derive ⟨.d1, "p-", "-s"⟩ ["c"] := by
  constructor
  · exact ((c8_splitPair_derive ⟨.d2split, "p-", "-s"⟩ ["a", "b", "c"] rfl).1
      (by decide)).trans (by decide)
  · exact (c8_splitPair_derive ⟨.d2split, "p-", "-s"⟩ ["c"] rfl).2 rfl

/-- C2: for a move with a supplied old path (and a non-empty derived set for
the new path, the documented no-op case aside), a tag is in the result iff it
is a newly derived tag or a pre-existing tag outside `derive(oldPath,
config)` — the full derived set recomputed from the old path under the active
configuration; and the spec's example holds: `["work", "urgent"]` moved from
`work` to `personal` under single mode becomes `["urgent", "personal"]`. -/
theorem c2_move_removes_derive_oldPath (cfg : Config) (filePath oldPath : String)
    (v : TagsValue) (hft : getFolderTagsFromPath cfg filePath ≠ []) :
    (∀ t, t ∈ tagsListOf (applyFolderTag cfg filePath .move (some oldPath) v) ↔
        ((t ∈ extractTags v ∧ t ∉ getFolderTagsFromPath cfg oldPath) ∨
          t ∈ getFolderTagsFromPath cfg filePath)) ∧
    applyFolderTag defaultConfig "personal/note.md" .move (some "work/note.md")
        (.list ["work", "urgent"]) = .list ["urgent", "personal"] := by
  have hne := isEmpty_false_of_ne_nil hft
  refine ⟨fun t => ?_, by decide⟩
  simp only [applyFolderTag, hne, Bool.false_eq_true, if_false, applyTags, tagsListOf]
  rw [mem_mergeTags_iff]
  simp [List.mem_filter, contains_eq_false_iff]

/-- Witness for `c2_move_removes_derive_oldPath`. -/
theorem c2_move_removes_derive_oldPath_witness :
    applyFolderTag defaultConfig "personal/note.md" .move (some "work/note.md")
        (.list ["work", "urgent"]) = .list ["urgent", "personal"] :=
  (c2_move_removes_derive_oldPath defaultConfig "personal/note.md" "work/note.md"
    (.list ["work", "urgent"]) (by decide)).2

/-- C3 (code-bug evidence): the bulk rerun calls `applyFolderTag(file,
"rerun")` with no old path, so the strip branch — whose guard explicitly
names `rerun` — never runs on a rerun: an already-present folder tag is left
in place (first conjunct), a tag derived under a previous configuration
(`"old-work"`, from prefix `"old-"`) survives the rerun (second conjunct),
and the strip-then-append outcome the spec prescribes,
`["urgent", "work"]`, differs from the code's `["work", "urgent"]` (third
conjunct computes the prescribed outcome). -/
theorem c3_rerun_never_strips :
    applyFolderTag defaultConfig "work/note.md" .rerun none
        (.list ["work", "urgent"]) = .list ["work", "urgent"] ∧
    applyFolderTag defaultConfig "work/note.md" .rerun none
        (.list ["old-work", "urgent"]) = .list ["old-work", "urgent", "work"] ∧
    applyTags ["work", "urgent"] (getFolderTagsFromPath defaultConfig "work/note.md")
        (getFolderTagsFromPath defaultConfig "work/note.md") = ["urgent", "work"] :=
  ⟨by decide, by decide, by decide⟩

/-- C1 fails as stated: with pre-existing (extracted) tags `["u", "u", "p"]`,
stale set `["p"]` and derived set `["u", "p"]`, the result `["u", "u", "p"]`
contains the derived tag `"u"` twice, and still contains `"p"` although it
belongs to the stale set (it is re-appended as a derived tag). -/
theorem c1_counterexample :
    ¬ (((applyTags ["u", "u", "p"] ["p"] ["u", "p"]).count "u" = 1) ∧
        "p" ∉ applyTags ["u", "u", "p"] ["p"] ["u", "p"]) := by decide

/-- C1 (amended): after apply, a derived tag `t` occurs `max(k, 1)` times,
`k` being its multiplicity among the stale-filtered pre-existing tags (so
exactly once whenever the pre-existing tags held it at most once); no stale
tag outside the derived set remains; and the surviving pre-existing tags
form a prefix of the result, in their original relative order. -/
theorem c1_amended_invariant (existing staleTags newTags : List String) :
    (∀ t ∈ newTags,
        (applyTags existing staleTags newTags).count t =
          max ((existing.filter (fun x => !staleTags.contains x)).count t) 1) ∧
    (∀ t ∈ staleTags, t ∉ newTags → t ∉ applyTags existing staleTags newTags) ∧
    (existing.filter (fun x => !staleTags.contains x)) <+:
      applyTags existing staleTags newTags := by
  refine ⟨fun t ht => ?_, fun t hst hnt hmem => ?_, prefix_mergeTags _ _⟩
  · rw [applyTags, count_mergeTags, if_pos ht]
  · rcases (mem_mergeTags_iff _ _).mp hmem with h | h
    · have hf := (List.mem_filter.mp h).2
      rw [contains_iff_mem.mpr hst] at hf
      exact Bool.noConfusion hf
    · exact hnt h

/-- Witness for `c1_amended_invariant`. -/
theorem c1_amended_invariant_witness :
    (applyTags ["urgent", "work"] ["work"] ["personal"]).count "personal" = 1 ∧
    "work" ∉ applyTags ["urgent", "work"] ["work"] ["personal"] := by
  have h := c1_amended_invariant ["urgent", "work"] ["work"] ["personal"]
  refine ⟨?_, h.2.1 "work" (by decide) (by decide)⟩
  have h1 := h.1 "personal" (by decide)
  rw [h1]
  decide

/-- C4 fails in the inline encoding: stripping the only tag rewrites the
line as an empty `tags:: ` line — which still matches the inline tag
pattern — instead of deleting it. -/
theorem c4_counterexample :
    removeFolderTagsContent defaultSettingsB "work/note.md"
        ["tags:: work", "body text"] = ["tags:: ", "body text"] ∧
    matchInlineTagLine "tags:: " = some " " :=
  ⟨by decide, by decide⟩

/-- C4 (amended): when every tag is filtered out, the structured encoding
(current revision) deletes the `tags` key entirely, but the inline encoding
(older revision) rewrites the line as an empty `tags:: ` line rather than
deleting it. -/
theorem c4_amended_empty_result (cfg : Config) (filePath : String) (v : TagsValue)
    (hft : getFolderTagsFromPath cfg filePath ≠ [])
    (hempty : (extractTags v).filter
        (fun t => !(getFolderTagsFromPath cfg filePath).contains t) = []) :
    removeFolderTags cfg filePath v = .absent ∧
    removeFolderTagsContent defaultSettingsB "work/note.md"
        ["tags:: work", "hello"] = ["tags:: ", "hello"] := by
  have hne := isEmpty_false_of_ne_nil hft
  refine ⟨?_, by decide⟩
  simp only [removeFolderTags, hne, Bool.false_eq_true, if_false, hempty,
    List.isEmpty_nil, if_true]

/-- Witness for `c4_amended_empty_result`. -/
theorem c4_amended_empty_result_witness :
    removeFolderTags defaultConfig "work/note.md" (.list ["work"]) = .absent :=
  (c4_amended_empty_result defaultConfig "work/note.md" (.list ["work"])
    (by decide) (by decide)).1

/-- C5 fails for the structured comma-string representation: a `tags` value
read as a comma-separated string is written back as a structured list, not
as a string. -/
theorem c5_counterexample :
    isStrRep (TagsValue.str "work, urgent") = true ∧
    applyFolderTag defaultConfig "personal/note.md" .create none
        (.str "work, urgent") = .list ["work", "urgent", "personal"] ∧
    isStrRep (applyFolderTag defaultConfig "personal/note.md" .create none
        (.str "work, urgent")) = false :=
  ⟨by decide, by decide, by decide⟩

/-- C5 (amended): whenever the current reconciler writes, the result is a
structured list — a structured list stays a list, but a structured
comma-separated string is converted to a list; the older revision keeps an
inline comma list inline, and when no representation exists it creates a
fresh structured block and prepends it. -/
theorem c5_amended_representation (cfg : Config) (filePath : String)
    (action : TagAction) (oldPath : Option String)
    (hft : getFolderTagsFromPath cfg filePath ≠ []) :
    (∀ l : List String,
        isListRep (applyFolderTag cfg filePath action oldPath (.list l)) = true) ∧
    (∀ s : String,
        isListRep (applyFolderTag cfg filePath action oldPath (.str s)) = true) ∧
    applyFolderTagContent defaultSettingsB "personal/note.md" .move
        (some "work/note.md") ["tags:: work, urgent", "x"] =
      ["tags:: urgent, personal", "x"] ∧
    applyFolderTagContent defaultSettingsB "work/note.md" .create none ["hello"] =
      ["---", "tags:", "  - work", "---", "hello"] := by
  have hne := isEmpty_false_of_ne_nil hft
  refine ⟨fun l => ?_, fun s => ?_, by decide, by decide⟩ <;>
    simp [applyFolderTag, hne, isListRep]

/-- Witness for `c5_amended_representation`. -/
theorem c5_amended_representation_witness :
    isListRep (applyFolderTag defaultConfig "personal/note.md" .create none
        (.str "work, urgent")) = true :=
  (c5_amended_representation defaultConfig "personal/note.md" .create none
    (by decide)).2.1 "work, urgent"

/-- C6 fails as stated: with prefix `" "` the derived tag `" a"` is not
trim-fixed; the first apply stores `[" a"]`, the second re-extracts it as
`["a"]`, does not find `" a"` in it, and appends a duplicate entry. -/
theorem c6_counterexample :
    applyFolderTag ⟨.d1, " ", ""⟩ "a/f.md" .create none
        (applyFolderTag ⟨.d1, " ", ""⟩ "a/f.md" .create none (.list [])) ≠
      applyFolderTag ⟨.d1, " ", ""⟩ "a/f.md" .create none (.list []) := by decide

/-- C6 (amended): apply (no stale set) is idempotent provided every derived
tag is whitespace-trim-fixed — in particular whenever prefix, suffix and
folder names carry no leading or trailing whitespace: the second application
re-extracts exactly the stored list and appends nothing. -/
theorem c6_amended_idempotent (cfg : Config) (filePath : String) (v : TagsValue)
    (h : ∀ t ∈ getFolderTagsFromPath cfg filePath, jsTrim t = t) :
    applyFolderTag cfg filePath .create none
        (applyFolderTag cfg filePath .create none v) =
      applyFolderTag cfg filePath .create none v := by
  by_cases hfe : getFolderTagsFromPath cfg filePath = []
  · simp [applyFolderTag, hfe]
  · have hne := isEmpty_false_of_ne_nil hfe
    have hstep : applyFolderTag cfg filePath .create none v =
        .list (mergeTags (extractTags v) (getFolderTagsFromPath cfg filePath)) := by
      simp [applyFolderTag, hne, applyTags_nil_stale]
    rw [hstep]
    have hfix : ∀ t ∈ mergeTags (extractTags v) (getFolderTagsFromPath cfg filePath),
        jsTrim t = t := by
      intro t ht
      rcases (mem_mergeTags_iff _ _).mp ht with hx | hx
      · exact extractTags_trimFixed v t hx
      · exact h t hx
    have hext := extractTags_list_eq _ hfix
    have hsub : ∀ t ∈ getFolderTagsFromPath cfg filePath,
        t ∈ mergeTags (extractTags v) (getFolderTagsFromPath cfg filePath) :=
      fun t ht => (mem_mergeTags_iff _ _).mpr (Or.inr ht)
    simp only [applyFolderTag, hne, Bool.false_eq_true, if_false,
      applyTags_nil_stale, hext]
    rw [mergeTags_eq_self _ _ hsub]

/-- Witness for `c6_amended_idempotent`. -/
theorem c6_amended_idempotent_witness :
    applyFolderTag defaultConfig "work/note.md" .create none
        (applyFolderTag defaultConfig "work/note.md" .create none (.list ["a"])) =
      applyFolderTag defaultConfig "work/note.md" .create none (.list ["a"]) :=
  c6_amended_idempotent defaultConfig "work/note.md" (.list ["a"]) (by decide)

/-- C7 fails for the bulk remove pass: with an error on the first document,
only document `1` is attempted — document `2` is never processed, so the
error aborted the pass instead of the loop continuing. -/
theorem c7_counterexample :
    removePassAttempts failsOnDocOne [1, 2] = [1] ∧
    removePassAttempts failsOnDocOne [1, 2] ≠ [1, 2] :=
  ⟨by decide, by decide⟩

/-- C7 (amended): the current bulk reapply pass records a per-document
outcome and always attempts every document in order, while the bulk remove
pass has no per-document catch: the documents it attempts are only an
initial segment of the list, ending at the first failure. -/
theorem c7_amended_passes {α ε : Type} (process : α → Except ε Unit) (docs : List α) :
    (reapplyPass process docs).map Prod.fst = docs ∧
    removePassAttempts process docs <+: docs := by
  induction docs with
  | nil => exact ⟨rfl, List.nil_prefix⟩
  | cons d ds ih =>
    refine ⟨by simp [reapplyPass, ih.1], ?_⟩
    rw [removePassAttempts]
    cases process d with
    | ok u => exact (List.cons_prefix_cons).mpr ⟨rfl, ih.2⟩
    | error e => exact ⟨ds, rfl⟩

/-- C9 fails on `create` without override: a document holding both a
frontmatter block and an inline tag line is not reconciled through its
structured block — a second, fresh frontmatter block is prepended on top,
the original block's `tags` entry (`  - old`) surviving untouched below it
(and the inline line also untouched). -/
theorem c9_counterexample :
    applyFolderTagContent defaultSettingsB "work/note.md" .create none
        ["---", "tags:", "  - old", "---", "tags:: inline, keep"] =
      ["---", "tags:", "  - work", "---",
       "---", "tags:", "  - old", "---", "tags:: inline, keep"] := by decide

/-- C9 (amended): for move and rerun actions, and for create when
`overrideExisting` is enabled, a document with a frontmatter block whose
lines parse as a key/value mapping (the modelled faithful domain; a
frontmatter holding a bare scalar makes the strict-mode assignment throw in
the source and is excluded) is reconciled in the block alone: the whole
body — in particular any inline `tags::` line — is carried over verbatim as
a suffix of the result (after the body's leading-whitespace trim).
Concretely, on a document holding both encodings, a move, a rerun, and a
create-with-override each change only the block's `tags` key while the
inline line survives byte-for-byte. -/
theorem c9_amended_structured_precedence :
    (∀ (s : SettingsB) (filePath : String) (action : TagAction)
        (oldPath : Option String) (content fm body : List String),
        splitFrontmatter content = some (fm, body) →
        (loadYamlLines fm).isSome = true →
        (action ≠ TagAction.create ∨ s.overrideExisting = true) →
        getFolderTagsFromPath s.cfg filePath ≠ [] →
        trimStartLines body <:+
          applyFolderTagContent s filePath action oldPath content) ∧
    applyFolderTagContent defaultSettingsB "personal/note.md" .move
        (some "work/note.md")
        ["---", "title: hello", "tags:", "  - work", "---", "", "tags:: inline, keep"] =
      ["---", "title: hello", "tags:", "  - personal", "---", "tags:: inline, keep"] ∧
    applyFolderTagContent defaultSettingsB "work/note.md" .rerun none
        ["---", "title: hello", "tags:", "  - old", "---", "", "tags:: inline, keep"] =
      ["---", "title: hello", "tags:", "  - old", "  - work", "---",
       "tags:: inline, keep"] ∧
    applyFolderTagContent ⟨defaultConfig, true⟩ "work/note.md" .create none
        ["---", "title: hello", "tags:", "  - old", "---", "", "tags:: inline, keep"] =
      ["---", "title: hello", "tags:", "  - old", "  - work", "---",
       "tags:: inline, keep"] := by
  refine ⟨fun s fp action op content fm body hsplit hload haction hft => ?_,
    by decide, by decide, by decide⟩
  have hne := isEmpty_false_of_ne_nil hft
  simp only [applyFolderTagContent, hne, Bool.false_eq_true, if_false, hsplit]
  rw [if_pos haction]
  have hsuf : ∀ pre : List String,
      trimStartLines body <:+ "---" :: pre ++ "---" :: trimStartLines body :=
    fun pre => ⟨"---" :: pre ++ ["---"], by simp⟩
  exact hsuf _

/-- Witness for `c9_amended_structured_precedence`. -/
theorem c9_amended_structured_precedence_witness :
    (["tags:: inline, keep"] : List String) <:+
      applyFolderTagContent defaultSettingsB "personal/note.md" .move
        (some "work/note.md")
        ["---", "title: hello", "tags:", "  - work", "---", "", "tags:: inline, keep"] := by
  have h := c9_amended_structured_precedence.1 defaultSettingsB "personal/note.md"
    .move (some "work/note.md")
    ["---", "title: hello", "tags:", "  - work", "---", "", "tags:: inline, keep"]
    ["title: hello", "tags:", "  - work"] ["", "", "tags:: inline, keep"]
    (by decide) (by decide) (Or.inl (by decide)) (by decide)
  rw [show trimStartLines ["", "", "tags:: inline, keep"] = ["tags:: inline, keep"]
    from by decide] at h
  exact h

/-- C10: whichever structured representation is read, every pre-existing
entry is written back trimmed: in a `create` apply each pre-existing
extracted entry is trim-fixed and survives into the output; concretely,
whitespace-padded entries — in a list or a comma-separated string — are
rewritten in trimmed form by both apply and remove, and the padded originals
are gone. -/
theorem c10_trimmed_writeback (cfg : Config) (filePath : String) (v : TagsValue)
    (hft : getFolderTagsFromPath cfg filePath ≠ []) :
    (∀ t ∈ extractTags v,
        t ∈ tagsListOf (applyFolderTag cfg filePath .create none v) ∧ jsTrim t = t) ∧
    applyFolderTag defaultConfig "personal/note.md" .create none
        (.list [" urgent ", "work"]) = .list ["urgent", "work", "personal"] ∧
    removeFolderTags defaultConfig "work/note.md" (.list [" urgent ", " work "]) =
      .list ["urgent"] ∧
    applyFolderTag defaultConfig "personal/note.md" .create none (.str " a , b") =
      .list ["a", "b", "personal"] := by
  have hne := isEmpty_false_of_ne_nil hft
  refine ⟨fun t ht => ⟨?_, extractTags_trimFixed v t ht⟩, by decide, by decide, by decide⟩
  simp only [applyFolderTag, hne, Bool.false_eq_true, if_false, applyTags_nil_stale,
    tagsListOf]
  exact mem_mergeTags_left _ _ ht

/-- Witness for `c10_trimmed_writeback`. -/
theorem c10_trimmed_writeback_witness :
    "urgent" ∈ tagsListOf (applyFolderTag defaultConfig "personal/note.md" .create none
        (.list [" urgent "])) ∧ jsTrim "urgent" = "urgent" :=
  (c10_trimmed_writeback defaultConfig "personal/note.md" (.list [" urgent "])
    (by decide)).1 "urgent" (by decide)

end FolderToTag



